import Mathlib

/-!
Verification of the execution-chain library (namespace `chain`):
the control-flow combinators of ExecutionFlow.h, the `ExecutionChain`
and `BlockTuple` of ExecutionChain.h, and `polymorphic_value`.

The argument pack `Args&...` of an invocation is modelled as a single
state type `σ` threaded through calls (actions mutate their arguments
in place; the model makes the mutation explicit state passing).
-/

/-- Model of a caller-supplied callable as dispatched by
`detail::returns_bool` in ExecutionFlow.h: a callable either returns
`bool` (`retBool`) or returns nothing (`retVoid`).  Each callable
carries an identifier `id` used only to record call traces, so that
"this action was invoked exactly once" is expressible. -/
inductive Callable (σ : Type) where
  | retBool (id : Nat) (f : σ → σ × Bool)
  | retVoid (id : Nat) (f : σ → σ)

/-- Identifier of a callable (trace instrumentation). -/
def Callable.cid {σ : Type} : Callable σ → Nat
  | .retBool i _ => i
  | .retVoid i _ => i

/-- State transformation performed by a callable. -/
def Callable.eff {σ : Type} : Callable σ → σ → σ
  | .retBool _ f, s => (f s).1
  | .retVoid _ f, s => f s

/-- Model of `detail::Call` (ExecutionFlow.h lines 14-26): invoke the
callable on the arguments; if it returns `bool` that value is the
result, otherwise the result is `true`.  The third component is the
trace of invoked callable identifiers. -/
def detailCall {σ : Type} : Callable σ → σ → σ × Bool × List Nat
  | .retBool i f, s => ((f s).1, (f s).2, [i])
  | .retVoid i f, s => (f s, true, [i])

/-- Model of `IfThen::Execute` (ExecutionFlow.h lines 69-78): call the
predicate on the arguments (the predicate may mutate them and returns
`bool`); when it is false return `true` without touching the
then-action, otherwise `detail::Call` the then-action. -/
def IfThen.Execute {σ : Type} (pred : σ → σ × Bool) (then_ : Callable σ) (s : σ) :
    σ × Bool × List Nat :=
  let r := pred s
  if !r.2 then (r.1, true, [])
  else detailCall then_ r.1

/-- Model of `IfThenElse::Execute` (ExecutionFlow.h lines 32-41): call
the predicate; on true `detail::Call` the then-action, on false
`detail::Call` the else-action. -/
def IfThenElse.Execute {σ : Type} (pred : σ → σ × Bool)
    (then_ elseThen : Callable σ) (s : σ) : σ × Bool × List Nat :=
  let r := pred s
  if r.2 then detailCall then_ r.1
  else detailCall elseThen r.1

/-- Model of `TryFallback::Execute` (ExecutionFlow.h lines 131-141):
`detail::Call(m_try, args...) || detail::Call(m_fallback, args...)`
with the short-circuit semantics of the C++ `||` operator. -/
def TryFallback.Execute {σ : Type} (try_ fallback : Callable σ) (s : σ) :
    σ × Bool × List Nat :=
  let r := detailCall try_ s
  if r.2.1 then (r.1, true, r.2.2)
  else
    let r2 := detailCall fallback r.1
    (r2.1, r2.2.1, r.2.2 ++ r2.2.2)

/-- A `BlockTuple<ActionsT...>` is a compile-time ordered list of
actions; the model erases the heterogeneous element types to the
observable content: the ordered list of callables. -/
abbrev BlockTuple (σ : Type) := List (Callable σ)

/-- Model of `start_chain` (`BlockTuple<void>`), the empty sequence
used to kick off composition. -/
def start_chain (σ : Type) : BlockTuple σ := []

/-- Model of `BlockTuple::operator|` taking a single action
(ExecutionChain.h lines 320-352): build a new tuple from copies of the
current elements followed by the new action; `m_actions` is only read
(`std::tuple_cat` copies it), never written. -/
def BlockTuple.pipeAction {σ : Type} (bt : BlockTuple σ) (other : Callable σ) :
    BlockTuple σ :=
  bt ++ [other]

/-- Model of `BlockTuple::operator|` taking another tuple
(ExecutionChain.h lines 314-318): concatenate the two element lists
into a fresh tuple; both operands are copied from. -/
def BlockTuple.pipeTuple {σ : Type} (bt other : BlockTuple σ) : BlockTuple σ :=
  bt ++ other

/-- Model of `BlockTuple::Execute` (ExecutionChain.h lines 276-296):
`std::invoke` every element in order on the same arguments, discarding
each element's own result. -/
def BlockTuple.Execute {σ : Type} (bt : BlockTuple σ) (s : σ) : σ :=
  bt.foldl (fun s a => a.eff s) s

theorem detailCall_trace {σ : Type} (c : Callable σ) (s : σ) :
    (detailCall c s).2.2 = [c.cid] := by
  cases c <;> simp [detailCall, Callable.cid]

/-- C3: for every predicate P, then-action T and optional else-action E,
the Branch combinator evaluates P on the arguments; if P is true it
evaluates T and returns T's continuation result (`detail::Call`, which
yields true when T returns no boolean); if P is false and no
else-branch is configured it returns true with an empty call trace (T
is not evaluated); if P is false and E is configured it evaluates E and
returns E's continuation result. -/
theorem branch_combinator_semantics {σ : Type} (pred : σ → σ × Bool)
    (T E : Callable σ) (s : σ) :
    (IfThenElse.Execute pred T E s
      = if (pred s).2 then detailCall T (pred s).1 else detailCall E (pred s).1)
    ∧ (IfThen.Execute pred T s
      = if (pred s).2 then detailCall T (pred s).1 else ((pred s).1, true, []))
    ∧ (∀ i f, detailCall (Callable.retVoid i f) s = (f s, true, [i])) := by
  refine ⟨?_, ?_, ?_⟩
  · by_cases h : (pred s).2 <;> simp [IfThenElse.Execute, h]
  · by_cases h : (pred s).2 <;> simp [IfThen.Execute, h]
  · intro i f; rfl

/-- C4: the TryFallback combinator evaluates the primary; if the
primary's continuation result is true it returns true and the call
trace contains only the primary (the fallback is never evaluated); if
it is false the fallback is evaluated exactly once (the trace is
primary then fallback, one occurrence each) and the fallback's
continuation result is returned. -/
theorem try_fallback_semantics {σ : Type} (try_ fallback : Callable σ) (s : σ) :
    TryFallback.Execute try_ fallback s
      = if (detailCall try_ s).2.1
        then ((detailCall try_ s).1, true, [Callable.cid try_])
        else ((detailCall fallback (detailCall try_ s).1).1,
              (detailCall fallback (detailCall try_ s).1).2.1,
              [Callable.cid try_, Callable.cid fallback]) := by
  by_cases h : (detailCall try_ s).2.1
  · simp [TryFallback.Execute, h, detailCall_trace]
  · simp [TryFallback.Execute, h, detailCall_trace]

/-- C7: composing a BlockTuple with an action or another tuple through
`operator|` yields a new sequence whose elements are the original
elements followed by the new one(s); composition is pure, so a
sequence can be reused as a common prefix (two different compositions
from the same `bt` both extend the very same element list), and
executing a concatenation runs the prefix first, then the suffix, on
the resulting state. -/
theorem block_tuple_pure_composition {σ : Type} (bt other : BlockTuple σ)
    (x y : Callable σ) (s : σ) :
    (BlockTuple.pipeAction bt x = bt ++ [x])
    ∧ (BlockTuple.pipeTuple bt other = bt ++ other)
    ∧ (BlockTuple.pipeAction bt y = bt ++ [y])
    ∧ (BlockTuple.pipeTuple (start_chain σ) other = other)
    ∧ (BlockTuple.Execute (BlockTuple.pipeTuple bt other) s
        = BlockTuple.Execute other (BlockTuple.Execute bt s)) := by
  refine ⟨rfl, rfl, rfl, by simp [BlockTuple.pipeTuple, start_chain], ?_⟩
  simp [BlockTuple.pipeTuple, BlockTuple.Execute, List.foldl_append]

/-!
Model of `ExecutionChain` (ExecutionChain.h lines 69-236).

An `ExecutionBlock` wraps one action; the action may carry internal
state (a mutable functor), modelled by a state component of type `ι`
next to the step function.  `ExecutionBlock::Execute` invokes the
action and discards its result (the virtual `Execute` returns `void`).

Blocks live in dynamically allocated `polymorphic_value`s; the
allocation heap is made explicit as a `Store`: a list of blocks where
a block's identity is its index.  A chain (`m_blocks`) is the ordered
list of identities of its blocks.  `create_block`/`append` allocate a
fresh block at the end of the store; copying a chain clones every
block into fresh storage (the `polymorphic_value` copy constructor
calls `control_block::clone`, ExecutionChain.h line 125 and
polymorphic_value.h lines 408-411).
-/

/-- A wrapped action: a step function from internal state and
arguments to new internal state, new arguments and a result (`true`
for actions that return no boolean, matching the uniform protocol),
plus the action's current internal state. -/
structure ActionV (σ ι : Type) where
  step : ι → σ → ι × σ × Bool
  state : ι

/-- The explicit allocation heap of `ExecutionBlock`s: a block's
identity is its index in the store. -/
abbrev Store (σ ι : Type) := List (ActionV σ ι)

/-- A chain's `m_blocks`: the ordered list of block identities. -/
abbrev ChainBlocks := List Nat

/-- Model of `ExecutionChain::Execute` (ExecutionChain.h lines
169-174): iterate the block list in order; each block invokes its
action on the current arguments (updating the action's internal state
in place in the store) and the block's result is discarded (`Execute`
returns `void`), so the chain never short-circuits.  Returns the
updated store, the final arguments and the trace of executed block
identities. -/
def ExecutionChain.Execute {σ ι : Type} :
    ChainBlocks → Store σ ι → σ → Store σ ι × σ × List Nat
  | [], st, s => (st, s, [])
  | i :: rest, st, s =>
    match st[i]? with
    | none => ExecutionChain.Execute rest st s
    | some a =>
      let r := a.step a.state s
      let st1 := st.set i ⟨a.step, r.1⟩
      let out := ExecutionChain.Execute rest st1 r.2.1
      (out.1, out.2.1, i :: out.2.2)

/-- Model of `ExecutionChain::append` for a single action
(ExecutionChain.h lines 184-187): `create_block` allocates a fresh
block wrapping the action and appends its identity to `m_blocks`. -/
def ExecutionChain.append {σ ι : Type} (c : ChainBlocks) (a : ActionV σ ι)
    (st : Store σ ι) : ChainBlocks × Store σ ι :=
  (c ++ [st.length], st ++ [a])

/-- Folding `append` over a list of actions: a chain built by a
sequence of append operations. -/
def ExecutionChain.appendAll {σ ι : Type} (c : ChainBlocks)
    (xs : List (ActionV σ ι)) (st : Store σ ι) : ChainBlocks × Store σ ι :=
  xs.foldl (fun p a => ExecutionChain.append p.1 a p.2) (c, st)

/-- Model of `m_blocks.clear()`: the block list becomes empty; the
store is untouched (released blocks are simply no longer referenced). -/
def ExecutionChain.clear {σ ι : Type} (c : ChainBlocks) (st : Store σ ι) :
    ChainBlocks × Store σ ι :=
  ([], st)

/-- Model of `ExecutionChain::operator=(ActionT&&)` (ExecutionChain.h
lines 148-155): clear the block list, then append the new action. -/
def ExecutionChain.assign {σ ι : Type} (c : ChainBlocks) (a : ActionV σ ι)
    (st : Store σ ι) : ChainBlocks × Store σ ι :=
  ExecutionChain.append (ExecutionChain.clear c st).1 a (ExecutionChain.clear c st).2

/-- Model of the `ExecutionChain` copy constructor (ExecutionChain.h
line 125, default): copying `m_blocks` copies every contained
`polymorphic_value`, and each copy clones the pointed-to
`ExecutionBlock` (polymorphic_value.h lines 408-411), i.e. allocates a
fresh block holding a copy of the wrapped action (step function and
current internal state). -/
def ExecutionChain.copy {σ ι : Type} :
    ChainBlocks → Store σ ι → ChainBlocks × Store σ ι
  | [], st => ([], st)
  | i :: rest, st =>
    match st[i]? with
    | none => ExecutionChain.copy rest st
    | some a =>
      let out := ExecutionChain.copy rest (st ++ [a])
      (st.length :: out.1, out.2)

/-- The chain mutations named by the spec: append an action, clear,
reassign (clear-then-append). -/
inductive ChainMut (σ ι : Type) where
  | mutAppend (a : ActionV σ ι)
  | mutClear
  | mutAssign (a : ActionV σ ι)

/-- Apply one mutation to a chain. -/
def applyMut {σ ι : Type} : ChainMut σ ι → ChainBlocks → Store σ ι →
    ChainBlocks × Store σ ι
  | .mutAppend a, c, st => ExecutionChain.append c a st
  | .mutClear, c, st => ExecutionChain.clear c st
  | .mutAssign a, c, st => ExecutionChain.assign c a st

/-- Apply a sequence of mutations to a chain. -/
def applyMuts {σ ι : Type} (ms : List (ChainMut σ ι)) (c : ChainBlocks)
    (st : Store σ ι) : ChainBlocks × Store σ ι :=
  ms.foldl (fun p m => applyMut m p.1 p.2) (c, st)

/-- Reference semantics of running a list of actions in order on a
state, threading each action's own internal state and ignoring the
boolean results. -/
def runAll {σ ι : Type} (xs : List (ActionV σ ι)) (s : σ) : σ :=
  xs.foldl (fun s a => (a.step a.state s).2.1) s

/-- Store `st2` extends store `st1`: every block of `st1` is still
present, unchanged, under the same identity. -/
def StoreExt {σ ι : Type} (st1 st2 : Store σ ι) : Prop :=
  ∀ j, j < st1.length → st2[j]? = st1[j]?

/-- All block identities of a chain refer to allocated blocks. -/
def WFChain {σ ι : Type} (c : ChainBlocks) (st : Store σ ι) : Prop :=
  ∀ i ∈ c, i < st.length

theorem ExecutionChain.Execute_cons_none {σ ι : Type} {st : Store σ ι} {i : Nat}
    (h : st[i]? = none) (rest : ChainBlocks) (s : σ) :
    ExecutionChain.Execute (i :: rest) st s = ExecutionChain.Execute rest st s := by
  simp [ExecutionChain.Execute, h]

theorem ExecutionChain.Execute_cons_some {σ ι : Type} {st : Store σ ι} {i : Nat}
    {a : ActionV σ ι} (h : st[i]? = some a) (rest : ChainBlocks) (s : σ) :
    ExecutionChain.Execute (i :: rest) st s =
      ((ExecutionChain.Execute rest (st.set i ⟨a.step, (a.step a.state s).1⟩)
          (a.step a.state s).2.1).1,
       (ExecutionChain.Execute rest (st.set i ⟨a.step, (a.step a.state s).1⟩)
          (a.step a.state s).2.1).2.1,
       i :: (ExecutionChain.Execute rest (st.set i ⟨a.step, (a.step a.state s).1⟩)
          (a.step a.state s).2.1).2.2) := by
  simp [ExecutionChain.Execute, h]

theorem storeExt_refl {σ ι : Type} (st : Store σ ι) : StoreExt st st :=
  fun _ _ => rfl

theorem storeExt_length {σ ι : Type} {st1 st2 : Store σ ι} (h : StoreExt st1 st2) :
    st1.length ≤ st2.length := by
  by_contra hc
  push_neg at hc
  have h1 : st2[st2.length]? = st1[st2.length]? := h st2.length hc
  rw [List.getElem?_eq_none (le_refl st2.length), List.getElem?_eq_getElem hc] at h1
  exact Option.some_ne_none _ h1.symm

theorem storeExt_trans {σ ι : Type} {st1 st2 st3 : Store σ ι}
    (h12 : StoreExt st1 st2) (h23 : StoreExt st2 st3) : StoreExt st1 st3 :=
  fun j hj => (h23 j (lt_of_lt_of_le hj (storeExt_length h12))).trans (h12 j hj)

theorem storeExt_push {σ ι : Type} (st l : Store σ ι) : StoreExt st (st ++ l) := by
  intro j hj
  rw [List.getElem?_append, if_pos hj]

theorem storeExt_set {σ ι : Type} {st1 st2 : Store σ ι} (h : StoreExt st1 st2)
    (i : Nat) (v : ActionV σ ι) : StoreExt (st1.set i v) (st2.set i v) := by
  intro j hj
  rw [List.length_set] at hj
  by_cases hij : i = j
  · subst hij
    rw [List.getElem?_set_eq_of_lt v hj,
        List.getElem?_set_eq_of_lt v (lt_of_lt_of_le hj (storeExt_length h))]
  · rw [List.getElem?_set_ne hij, List.getElem?_set_ne hij]
    exact h j hj

theorem ExecutionChain.Execute_ext {σ ι : Type} (c : ChainBlocks) :
    ∀ (st st2 : Store σ ι) (s : σ), StoreExt st st2 → WFChain c st →
      (ExecutionChain.Execute c st2 s).2 = (ExecutionChain.Execute c st s).2 := by
  induction c with
  | nil => intro st st2 s _ _; rfl
  | cons i rest ih =>
    intro st st2 s hext hwf
    have hi : i < st.length := hwf i (List.mem_cons_self i rest)
    have hlook : st[i]? = some st[i] := List.getElem?_eq_getElem hi
    have hlook2 : st2[i]? = some st[i] := (hext i hi).trans hlook
    rw [ExecutionChain.Execute_cons_some hlook2 rest s,
        ExecutionChain.Execute_cons_some hlook rest s]
    have hwf2 : WFChain rest
        (st.set i ⟨(st[i]).step, ((st[i]).step (st[i]).state s).1⟩) := by
      intro j hj
      rw [List.length_set]
      exact hwf j (List.mem_cons_of_mem i hj)
    have h2 := ih (st.set i ⟨(st[i]).step, ((st[i]).step (st[i]).state s).1⟩)
      (st2.set i ⟨(st[i]).step, ((st[i]).step (st[i]).state s).1⟩)
      (((st[i]).step (st[i]).state s).2.1) (storeExt_set hext i _) hwf2
    rw [h2]

theorem ExecutionChain.Execute_trace {σ ι : Type} (c : ChainBlocks) :
    ∀ (st : Store σ ι) (s : σ),
      (ExecutionChain.Execute c st s).2.2
        = c.filter (fun i => decide (i < st.length)) := by
  induction c with
  | nil => intro st s; rfl
  | cons i rest ih =>
    intro st s
    by_cases hi : i < st.length
    · have hlook : st[i]? = some st[i] := List.getElem?_eq_getElem hi
      rw [ExecutionChain.Execute_cons_some hlook rest s]
      have ht := ih (st.set i ⟨(st[i]).step, ((st[i]).step (st[i]).state s).1⟩)
        (((st[i]).step (st[i]).state s).2.1)
      simp only [List.length_set] at ht
      simp [List.filter_cons, hi, ht]
    · have hlook : st[i]? = none := List.getElem?_eq_none (Nat.le_of_not_lt hi)
      rw [ExecutionChain.Execute_cons_none hlook rest s]
      simp [List.filter_cons, hi, ih st s]

theorem ExecutionChain.Execute_length {σ ι : Type} (c : ChainBlocks) :
    ∀ (st : Store σ ι) (s : σ),
      (ExecutionChain.Execute c st s).1.length = st.length := by
  induction c with
  | nil => intro st s; rfl
  | cons i rest ih =>
    intro st s
    rcases h : st[i]? with _ | a
    · rw [ExecutionChain.Execute_cons_none h rest s]; exact ih st s
    · rw [ExecutionChain.Execute_cons_some h rest s]
      simp [ih, List.length_set]

theorem ExecutionChain.Execute_steps {σ ι : Type} (c : ChainBlocks) :
    ∀ (st : Store σ ι) (s : σ) (j : Nat),
      (((ExecutionChain.Execute c st s).1)[j]?).map ActionV.step
        = (st[j]?).map ActionV.step := by
  induction c with
  | nil => intro st s j; rfl
  | cons i rest ih =>
    intro st s j
    rcases h : st[i]? with _ | a
    · rw [ExecutionChain.Execute_cons_none h rest s]; exact ih st s j
    · rw [ExecutionChain.Execute_cons_some h rest s]
      have hi : i < st.length := by
        by_contra hc
        push_neg at hc
        rw [List.getElem?_eq_none hc] at h
        exact Option.noConfusion h
      show ((ExecutionChain.Execute rest
          (st.set i ⟨a.step, (a.step a.state s).1⟩) ((a.step a.state s).2.1)).1[j]?).map
            ActionV.step = (st[j]?).map ActionV.step
      rw [ih]
      by_cases hij : i = j
      · subst hij
        rw [List.getElem?_set_eq_of_lt _ hi, h]
        rfl
      · rw [List.getElem?_set_ne hij]

theorem ExecutionChain.appendAll_spec {σ ι : Type} (xs : List (ActionV σ ι)) :
    ∀ (c : ChainBlocks) (st : Store σ ι),
      ExecutionChain.appendAll c xs st
        = (c ++ List.range' st.length xs.length, st ++ xs) := by
  induction xs with
  | nil => intro c st; simp [ExecutionChain.appendAll]
  | cons a rest ih =>
    intro c st
    have h1 : ExecutionChain.appendAll c (a :: rest) st
        = ExecutionChain.appendAll (c ++ [st.length]) rest (st ++ [a]) := rfl
    rw [h1, ih]
    simp [List.range'_succ, List.append_assoc]

theorem set_append_cons {α : Type} : ∀ (pre : List α) (a v : α) (rest : List α),
    (pre ++ a :: rest).set pre.length v = pre ++ v :: rest
  | [], _, _, _ => rfl
  | p :: ps, a, v, rest => by
    show p :: ((ps ++ a :: rest).set ps.length v) = p :: (ps ++ v :: rest)
    rw [set_append_cons ps a v rest]

theorem ExecutionChain.Execute_suffix {σ ι : Type} (xs : List (ActionV σ ι)) :
    ∀ (pre : Store σ ι) (s : σ),
      (ExecutionChain.Execute (List.range' pre.length xs.length) (pre ++ xs) s).2.1
        = runAll xs s := by
  induction xs with
  | nil => intro pre s; rfl
  | cons a rest ih =>
    intro pre s
    simp only [List.length_cons]
    rw [List.range'_succ]
    have hlook : (pre ++ a :: rest)[pre.length]? = some a := by
      rw [List.getElem?_append_right (le_refl pre.length)]
      simp
    rw [ExecutionChain.Execute_cons_some hlook _ s]
    show (ExecutionChain.Execute (List.range' (pre.length + 1) rest.length)
        ((pre ++ a :: rest).set pre.length ⟨a.step, (a.step a.state s).1⟩)
        ((a.step a.state s).2.1)).2.1 = runAll (a :: rest) s
    rw [set_append_cons]
    have h2 := ih (pre ++ [(⟨a.step, (a.step a.state s).1⟩ : ActionV σ ι)])
      ((a.step a.state s).2.1)
    simp only [List.length_append, List.length_cons, List.length_nil,
      List.append_assoc, List.singleton_append] at h2
    exact h2

theorem ExecutionChain.copy_cons_none {σ ι : Type} {st : Store σ ι} {i : Nat}
    (h : st[i]? = none) (rest : ChainBlocks) :
    ExecutionChain.copy (i :: rest) st = ExecutionChain.copy rest st := by
  simp [ExecutionChain.copy, h]

theorem ExecutionChain.copy_cons_some {σ ι : Type} {st : Store σ ι} {i : Nat}
    {a : ActionV σ ι} (h : st[i]? = some a) (rest : ChainBlocks) :
    ExecutionChain.copy (i :: rest) st
      = (st.length :: (ExecutionChain.copy rest (st ++ [a])).1,
         (ExecutionChain.copy rest (st ++ [a])).2) := by
  simp [ExecutionChain.copy, h]

theorem ExecutionChain.copy_ext {σ ι : Type} (c : ChainBlocks) :
    ∀ st : Store σ ι, StoreExt st (ExecutionChain.copy c st).2 := by
  induction c with
  | nil => intro st; exact storeExt_refl st
  | cons i rest ih =>
    intro st
    rcases h : st[i]? with _ | a
    · rw [ExecutionChain.copy_cons_none h rest]; exact ih st
    · rw [ExecutionChain.copy_cons_some h rest]
      exact storeExt_trans (storeExt_push st [a]) (ih (st ++ [a]))

theorem ExecutionChain.copy_wf {σ ι : Type} (c : ChainBlocks) :
    ∀ st : Store σ ι,
      WFChain (ExecutionChain.copy c st).1 (ExecutionChain.copy c st).2 := by
  induction c with
  | nil => intro st j hj; exact absurd hj (List.not_mem_nil j)
  | cons i rest ih =>
    intro st j hj
    rcases h : st[i]? with _ | a
    · rw [ExecutionChain.copy_cons_none h rest] at hj ⊢
      exact ih st j hj
    · rw [ExecutionChain.copy_cons_some h rest] at hj ⊢
      rcases List.mem_cons.mp hj with rfl | hj2
      · have hlen := storeExt_length (ExecutionChain.copy_ext rest (st ++ [a]))
        simp only [List.length_append, List.length_cons, List.length_nil] at hlen
        show st.length < (ExecutionChain.copy rest (st ++ [a])).2.length
        omega
      · exact ih (st ++ [a]) j hj2

theorem applyMut_ext {σ ι : Type} (m : ChainMut σ ι) (c : ChainBlocks)
    (st : Store σ ι) : StoreExt st (applyMut m c st).2 := by
  cases m with
  | mutAppend a => exact storeExt_push st [a]
  | mutClear => exact storeExt_refl st
  | mutAssign a => exact storeExt_push st [a]

theorem applyMuts_ext {σ ι : Type} (ms : List (ChainMut σ ι)) :
    ∀ (c : ChainBlocks) (st : Store σ ι), StoreExt st (applyMuts ms c st).2 := by
  induction ms with
  | nil => intro c st; exact storeExt_refl st
  | cons m rest ih =>
    intro c st
    have h1 : applyMuts (m :: rest) c st
        = applyMuts rest (applyMut m c st).1 (applyMut m c st).2 := rfl
    rw [h1]
    exact storeExt_trans (applyMut_ext m c st) (ih _ _)

/-- C1: for a chain built by any sequence of append operations starting
from an empty `ExecutionChain`, invoking it calls every appended action
exactly once, in append order (the execution trace is exactly the block
identities 0,...,n-1 assigned at append time, in that order), on the
caller-supplied argument state, which is threaded through all the
actions (`runAll`); the boolean result of each block is ignored and the
chain never short-circuits (the trace covers all blocks for arbitrary
actions, including ones whose step returns false). -/
theorem chain_invoke_calls_all_in_append_order {σ ι : Type}
    (xs : List (ActionV σ ι)) (s : σ) :
    (ExecutionChain.Execute (ExecutionChain.appendAll [] xs ([] : Store σ ι)).1
        (ExecutionChain.appendAll [] xs ([] : Store σ ι)).2 s).2
      = (runAll xs s, List.range xs.length) := by
  rw [ExecutionChain.appendAll_spec]
  simp only [List.nil_append, List.length_nil]
  apply Prod.ext
  · have h1 := ExecutionChain.Execute_suffix xs ([] : Store σ ι) s
    simpa using h1
  · rw [ExecutionChain.Execute_trace, List.range_eq_range']
    apply List.filter_eq_self.mpr
    intro i hi
    have h2 := (List.mem_range'_1.mp hi).2
    simpa using h2

/-- C9: invoking `ExecutionChain::Execute` never modifies the chain's
block storage structure: the store keeps the same number of blocks, the
step function stored under every block identity is unchanged (only a
wrapped action's internal state may change), and invoking the chain
again, with any arguments, executes exactly the same blocks in the same
order (identical trace), so a chain can be invoked repeatedly. -/
theorem chain_execute_preserves_blocks {σ ι : Type} (c : ChainBlocks)
    (st : Store σ ι) (s : σ) :
    ((ExecutionChain.Execute c st s).1.length = st.length)
    ∧ (∀ j : Nat, (((ExecutionChain.Execute c st s).1)[j]?).map ActionV.step
          = (st[j]?).map ActionV.step)
    ∧ (∀ s2 : σ, (ExecutionChain.Execute c (ExecutionChain.Execute c st s).1 s2).2.2
          = (ExecutionChain.Execute c st s).2.2) := by
  refine ⟨ExecutionChain.Execute_length c st s, ExecutionChain.Execute_steps c st s, ?_⟩
  intro s2
  rw [ExecutionChain.Execute_trace, ExecutionChain.Execute_trace,
      ExecutionChain.Execute_length]

/-- C2: copying a chain produces a deeply independent chain: the copy
constructor clones every block into fresh storage, so for every
well-formed chain c, its copy c2, and any sequence of mutations
(append, clear, reassign) applied to c2, invoking c afterwards yields
exactly the arguments and trace it yielded on the original store, and
conversely any sequence of mutations applied to c leaves the behavior
of invoking c2 unchanged. -/
theorem chain_copy_deep_independence {σ ι : Type} (c : ChainBlocks) (st : Store σ ι)
    (ops : List (ChainMut σ ι)) (s : σ) (hwf : WFChain c st) :
    ((ExecutionChain.Execute c
        (applyMuts ops (ExecutionChain.copy c st).1 (ExecutionChain.copy c st).2).2 s).2
      = (ExecutionChain.Execute c st s).2)
    ∧ ((ExecutionChain.Execute (ExecutionChain.copy c st).1
        (applyMuts ops c (ExecutionChain.copy c st).2).2 s).2
      = (ExecutionChain.Execute (ExecutionChain.copy c st).1
          (ExecutionChain.copy c st).2 s).2) :=
  ⟨ExecutionChain.Execute_ext c st _ s
      (storeExt_trans (ExecutionChain.copy_ext c st) (applyMuts_ext ops _ _)) hwf,
   ExecutionChain.Execute_ext (ExecutionChain.copy c st).1 (ExecutionChain.copy c st).2 _ s
      (applyMuts_ext ops c _) (ExecutionChain.copy_wf c st)⟩

/-- Concrete action used by witnesses: increments its internal state
and adds it to the argument, returning false (a result the chain must
ignore). -/
def witnessAction : ActionV Nat Nat :=
  ⟨fun i s => (i + 1, s + i + 1, false), 0⟩

/-- Witness for C2 at a concrete chain of one block, one append
mutation and argument 3. -/
theorem chain_copy_deep_independence_witness :
    WFChain [0] [witnessAction]
    ∧ (((ExecutionChain.Execute [0]
          (applyMuts [ChainMut.mutAppend witnessAction]
            (ExecutionChain.copy [0] [witnessAction]).1
            (ExecutionChain.copy [0] [witnessAction]).2).2 3).2
        = (ExecutionChain.Execute [0] [witnessAction] 3).2)
      ∧ ((ExecutionChain.Execute (ExecutionChain.copy [0] [witnessAction]).1
          (applyMuts [ChainMut.mutAppend witnessAction] [0]
            (ExecutionChain.copy [0] [witnessAction]).2).2 3).2
        = (ExecutionChain.Execute (ExecutionChain.copy [0] [witnessAction]).1
            (ExecutionChain.copy [0] [witnessAction]).2 3).2)) :=
  ⟨fun i hi => by rw [List.mem_singleton] at hi; subst hi; decide,
   chain_copy_deep_independence [0] [witnessAction] [ChainMut.mutAppend witnessAction] 3
     (fun i hi => by rw [List.mem_singleton] at hi; subst hi; decide)⟩

/-- C5: reassigning a chain (`operator=`) first clears all existing
blocks and then appends the new source, and invoking the chain
afterwards is observationally identical to constructing a fresh chain
from the new source alone and invoking it: the resulting arguments are
equal and the same number of blocks (exactly one per appended source)
is executed — no residue of the prior content remains. -/
theorem chain_assign_replace_all {σ ι : Type} (c : ChainBlocks) (st : Store σ ι)
    (x : ActionV σ ι) (s : σ) :
    (ExecutionChain.assign c x st
        = ExecutionChain.append (ExecutionChain.clear c st).1 x
            (ExecutionChain.clear c st).2)
    ∧ ((ExecutionChain.Execute (ExecutionChain.assign c x st).1
          (ExecutionChain.assign c x st).2 s).2.1
        = (ExecutionChain.Execute (ExecutionChain.append [] x ([] : Store σ ι)).1
            (ExecutionChain.append [] x ([] : Store σ ι)).2 s).2.1)
    ∧ ((ExecutionChain.Execute (ExecutionChain.assign c x st).1
          (ExecutionChain.assign c x st).2 s).2.2.length
        = (ExecutionChain.Execute (ExecutionChain.append [] x ([] : Store σ ι)).1
            (ExecutionChain.append [] x ([] : Store σ ι)).2 s).2.2.length) := by
  have hlook : (st ++ [x])[st.length]? = some x := by
    rw [List.getElem?_append_right (le_refl st.length)]
    simp
  have h1 : ExecutionChain.Execute [st.length] (st ++ [x]) s
      = ((st ++ [x]).set st.length ⟨x.step, (x.step x.state s).1⟩,
         (x.step x.state s).2.1, [st.length]) := by
    rw [ExecutionChain.Execute_cons_some hlook [] s]
    rfl
  have h2 : ExecutionChain.Execute [0] ([x] : Store σ ι) s
      = (([x] : Store σ ι).set 0 ⟨x.step, (x.step x.state s).1⟩,
         (x.step x.state s).2.1, [0]) := by
    rw [ExecutionChain.Execute_cons_some
      (show ([x] : Store σ ι)[0]? = some x from rfl) [] s]
    rfl
  refine ⟨rfl, ?_, ?_⟩
  · show (ExecutionChain.Execute [st.length] (st ++ [x]) s).2.1
      = (ExecutionChain.Execute [0] ([x] : Store σ ι) s).2.1
    rw [h1, h2]
  · show (ExecutionChain.Execute [st.length] (st ++ [x]) s).2.2.length
      = (ExecutionChain.Execute [0] ([x] : Store σ ι) s).2.2.length
    rw [h1, h2]
    rfl

/-!
Model of `polymorphic_value` (polymorphic_value.h).

C++ runtime types are modelled by numeric type identities (`typeid`);
a held object is reduced to its dynamic type identity plus, where
object identity matters, an allocation identifier.  A thrown
`bad_polymorphic_value_construction` is modelled by `Except.error`
(a recoverable outcome the caller can catch), as opposed to a fatal
assertion.
-/

/-- The recoverable construction-time error of polymorphic_value.h
lines 191-201 (`bad_polymorphic_value_construction`, thrown as an
exception). -/
inductive PVConstructError where
  | badConstruction
deriving DecidableEq

/-- The pointee of an owning pointer handed to a `polymorphic_value`
constructor: its dynamic type identity (`typeid(*u)`). -/
structure Pointee where
  dynTy : Nat
deriving DecidableEq

/-- Model of `polymorphic_value::polymorphic_value(U*&&, C, D)`
(polymorphic_value.h lines 344-362): a null pointer yields an empty
container; otherwise, when both the copier and the deleter are the
defaults and the pointee's dynamic type differs from the declared type
`U`, a `bad_polymorphic_value_construction` is thrown; otherwise the
object is stored. `declTy` is the type identity of `U`;
`defaultCopier`/`defaultDeleter` state whether `C`/`D` are
`detail::default_copy<U>`/`std::default_delete<U>`. -/
def polymorphic_value.fromRawPtr (declTy : Nat) (u : Option Pointee)
    (defaultCopier defaultDeleter : Bool) :
    Except PVConstructError (Option Pointee) :=
  match u with
  | none => .ok none
  | some o =>
    if defaultDeleter && defaultCopier && !(o.dynTy == declTy) then
      .error .badConstruction
    else
      .ok (some o)

/-- Model of `polymorphic_value::polymorphic_value(std::unique_ptr<U, D>, C)`
(polymorphic_value.h lines 364-380): same empty/mismatch/store logic as
the raw-pointer constructor. -/
def polymorphic_value.fromUniquePtr (declTy : Nat) (u : Option Pointee)
    (defaultCopier defaultDeleter : Bool) :
    Except PVConstructError (Option Pointee) :=
  match u with
  | none => .ok none
  | some o =>
    if defaultDeleter && defaultCopier && !(o.dynTy == declTy) then
      .error .badConstruction
    else
      .ok (some o)

/-- C6: constructing a `polymorphic_value` from an owning raw pointer or
`unique_ptr` with a non-null pointee fails — with the recoverable
`bad_polymorphic_value_construction` error, not a fatal condition —
precisely when the default copier and deleter are used and the
pointee's dynamic type differs from the declared type `U`; whenever a
custom copier or deleter is supplied, or the types match, construction
succeeds and stores the object. -/
theorem pv_pointer_construction_type_check (declTy dynTy : Nat)
    (defC defD : Bool) :
    ((polymorphic_value.fromRawPtr declTy (some ⟨dynTy⟩) true true
        = .error .badConstruction) ↔ dynTy ≠ declTy)
    ∧ ((polymorphic_value.fromUniquePtr declTy (some ⟨dynTy⟩) true true
        = .error .badConstruction) ↔ dynTy ≠ declTy)
    ∧ (polymorphic_value.fromRawPtr declTy (some ⟨dynTy⟩) defC defD
        = if defC && defD && !(dynTy == declTy)
          then .error .badConstruction else .ok (some ⟨dynTy⟩))
    ∧ (polymorphic_value.fromUniquePtr declTy (some ⟨dynTy⟩) defC defD
        = if defC && defD && !(dynTy == declTy)
          then .error .badConstruction else .ok (some ⟨dynTy⟩)) := by
  refine ⟨?_, ?_, ?_, ?_⟩ <;>
    simp [polymorphic_value.fromRawPtr, polymorphic_value.fromUniquePtr,
      Bool.and_comm]

/-- Outcome of a member-access accessor of `polymorphic_value`,
evaluated under debug-build semantics (`assert` is active). -/
inductive AccessOutcome (T : Type) where
  | ok (t : T)
  | assertionFailure
  | derefNull
deriving DecidableEq

/-- Model of `polymorphic_value::operator->` (polymorphic_value.h lines
608-612 and 619-623): `assert(get() != nullptr)` fires on an empty
container before the pointer is returned. -/
def polymorphic_value.opArrow {T : Type} (c : Option T) : AccessOutcome T :=
  match c with
  | some t => .ok t
  | none => .assertionFailure

/-- Model of `polymorphic_value::operator*` (polymorphic_value.h lines
614-617 and 625-628): `return *get();` with no assertion — on an empty
container the null pointer is dereferenced unchecked. -/
def polymorphic_value.opStar {T : Type} (c : Option T) : AccessOutcome T :=
  match c with
  | some t => .ok t
  | none => .derefNull

/-- Model of `polymorphic_value::value` (polymorphic_value.h lines
552-570, all four reference qualifications): `return *get();` with no
assertion — on an empty container the null pointer is dereferenced
unchecked. -/
def polymorphic_value.value {T : Type} (c : Option T) : AccessOutcome T :=
  match c with
  | some t => .ok t
  | none => .derefNull

/-- C8 counterexample: it is not the case that every member-access
accessor (`operator->`, `operator*`, `value()`) invoked on an empty
container reaches a checked assertion: `operator*` (and likewise
`value()`) dereferences the null pointer without any assertion. -/
theorem pv_empty_access_assert_counterexample :
    ¬ (polymorphic_value.opArrow (none : Option Nat) = .assertionFailure
       ∧ polymorphic_value.opStar (none : Option Nat) = .assertionFailure
       ∧ polymorphic_value.value (none : Option Nat) = .assertionFailure) := by
  decide

/-- C8 amended: on an empty container, `operator->` is a precondition
violation detected by a checked assertion in debug builds, while
`operator*` and `value()` perform an unchecked dereference of the null
pointer (silently yielding an invalid reference) with no assertion; on
a non-empty container all three accessors return the held object. -/
theorem pv_empty_access_behavior {T : Type} (t : T) :
    (polymorphic_value.opArrow (none : Option T) = .assertionFailure)
    ∧ (polymorphic_value.opStar (none : Option T) = .derefNull)
    ∧ (polymorphic_value.value (none : Option T) = .derefNull)
    ∧ (polymorphic_value.opArrow (some t) = .ok t)
    ∧ (polymorphic_value.opStar (some t) = .ok t)
    ∧ (polymorphic_value.value (some t) = .ok t) :=
  ⟨rfl, rfl, rfl, rfl, rfl, rfl⟩

/-- A held polymorphic object with an allocation identity `oid`
(distinguishing the very same object from a clone) and its value. -/
structure ObjRef (V : Type) where
  oid : Nat
  val : V
deriving DecidableEq

/-- Model of `polymorphic_value::operator=(const polymorphic_value&)`
(polymorphic_value.h lines 452-467): if the source is the same object
as the target (`std::addressof(p) == this`, modelled by `isSelf`) the
target is returned unchanged; if the source is empty the target's
control block is released (`cb_.reset()`); otherwise the target takes a
clone of the source's object (`p.cb_->clone()`, modelled by a fresh
allocation identity `freshId` carrying the same value). -/
def polymorphic_value.assignCopy {V : Type} (tgt src : Option (ObjRef V))
    (isSelf : Bool) (freshId : Nat) : Option (ObjRef V) :=
  if isSelf then tgt
  else
    match src with
    | none => none
    | some o => some ⟨freshId, o.val⟩

/-- Model of `polymorphic_value::operator=(std::nullptr_t)`
(polymorphic_value.h lines 495-499): release the control block,
leaving the container empty. -/
def polymorphic_value.assignNull {V : Type} (tgt : Option (ObjRef V)) :
    Option (ObjRef V) :=
  none

/-- C10: copy-assigning an empty `polymorphic_value` (or `nullptr`) to
any `polymorphic_value` leaves the target empty, releasing whatever it
previously held (the result retains no reference to the old object);
self-assignment leaves the container unchanged, still holding the very
same underlying object (same allocation identity, no clone at the
fresh identity). -/
theorem pv_assign_empty_and_self {V : Type} (tgt : Option (ObjRef V))
    (o : ObjRef V) (freshId : Nat) :
    (polymorphic_value.assignCopy tgt none false freshId = none)
    ∧ (polymorphic_value.assignNull tgt = none)
    ∧ (polymorphic_value.assignCopy tgt tgt true freshId = tgt)
    ∧ (polymorphic_value.assignCopy (some o) (some o) true freshId = some o) :=
  ⟨rfl, rfl, rfl, rfl⟩
